import Mathlib

/-!
Verification of the pyscheme evaluator (the `versions/claude` variant, the
repository's most complete evaluator, from which the specification states it
was derived).

The embedding choices:

* Python tuples of expressions become `Expr.tup`; `int`/`float` literals are
  modelled together as rationals (`Expr.num`), the exactness of floating
  point being out of scope; Python `bool` (which `isinstance(-, int)`
  accepts) is `Expr.bool`; `None` is `Expr.noneLit`; already-evaluated
  callables are `Expr.proc`.
* `Environment` objects are mutable and shared in the source, so the
  embedding threads an explicit store: a list of frames, an environment
  being an index into it.  `Environment.__init__` inside a closure call
  becomes an append to the store; `Environment.define` mutates one frame in
  place.
* Exceptions become an error component of the result; mutation performed
  before an exception is visible to the caller in the source, so every
  result carries the post-store: `(Except Err Value) × Store`.
* Recursion of the source interpreter is made total with a fuel parameter;
  `Err.outOfFuel` models exhaustion of the host stack (out of scope for the
  source's contract) and is kept distinct from every source error kind.
-/

namespace PyScheme

/-- Primitive binary operators installed by `create_global_environment`. -/
inductive PrimOp where
  | add
  | mul
  | sub
  | div
  | eq
  | lt
  | gt

mutual

/-- Expressions, mirroring the source's
`Expression = Union[Atom, Tuple[Any, ...], Callable[..., Any]]`. -/
inductive Expr where
  | num (q : ℚ)
  | bool (b : Bool)
  | noneLit
  | sym (s : String)
  | tup (es : List Expr)
  | proc (p : Proc)

/-- Procedure values: the type-checked binary primitives of
`create_global_environment`, the `memoize` special primitive, the wrapper
returned by `make_memoized`, and closures built by `evaluate_lambda`
(parameter names, unevaluated body, captured environment index). -/
inductive Proc where
  | prim (op : PrimOp)
  | memoizeProc
  | memoized (p : Proc)
  | closure (params : List String) (body : Expr) (envId : Nat)

end

/-- Values an evaluation can produce: numbers, Python booleans (results of
`=`, `<`, `>`), Python `None` (result of `define`), and procedures. -/
inductive Value where
  | num (q : ℚ)
  | bool (b : Bool)
  | noneV
  | proc (p : Proc)

/-- Re-reading a value as an expression.  In the source both live in the
same dynamic world, so this is the identity embedding. -/
def Value.toExpr : Value → Expr
  | .num q => .num q
  | .bool b => .bool b
  | .noneV => .noneLit
  | .proc p => .proc p

/-- Error kinds.  `undefinedSymbol` is `UndefinedSymbolError` (it carries
the offending name, as the source's message does), `invalidExpression` is
`InvalidExpressionError`, `arityError` is `ArityError`.  `typeError` and
`zeroDivision` are the host `TypeError` / `ZeroDivisionError` raised inside
primitives before `evaluate_application` converts them; the flag on
`typeError` records whether the host message contains the substring
`"arguments"`, which is what the conversion tests. -/
inductive Err where
  | undefinedSymbol (name : String)
  | invalidExpression
  | arityError
  | typeError (mentionsArguments : Bool)
  | zeroDivision
  | outOfFuel
deriving DecidableEq

/-- One `Environment` object: `self.bindings` (an insertion-ordered dict,
modelled as an association list with in-place update) and `self.enclosing`
(an index into the store). -/
structure Frame where
  bindings : List (String × Value)
  parent : Option Nat

/-- The heap of `Environment` objects.  An environment is an index. -/
abbrev Store := List Frame

/-- Python dict lookup `self.bindings[symbol]` on the association-list
model (keys are unique, so first match is the dict's answer). -/
def bindingsLookup : List (String × Value) → String → Option Value
  | [], _ => none
  | (k, w) :: rest, s => if k = s then some w else bindingsLookup rest s

/-- Python dict assignment `self.bindings[symbol] = value`: replace the
existing entry in place, else append. -/
def bindingsUpdate : List (String × Value) → String → Value → List (String × Value)
  | [], s, v => [(s, v)]
  | (k, w) :: rest, s, v =>
    if k = s then (s, v) :: rest else (k, w) :: bindingsUpdate rest s v

/-- `Environment.define`. -/
def Frame.defineBinding (f : Frame) (s : String) (v : Value) : Frame :=
  { f with bindings := bindingsUpdate f.bindings s v }

/-- `env.define(symbol, value)` through the store: mutate frame `id` in
place. -/
def storeDefine (σ : Store) (id : Nat) (s : String) (v : Value) : Store :=
  match σ[id]? with
  | some f => σ.set id (f.defineBinding s v)
  | none => σ

/-- `Environment.get`: check the local bindings, then walk the parent
chain.  The walk is given fuel; callers pass `σ.length`, enough for every
store whose parent links point to older frames. -/
def envGet (σ : Store) : Nat → Nat → String → Option Value
  | 0, _, _ => none
  | fuel + 1, id, s =>
    match σ[id]? with
    | none => none
    | some f =>
      match bindingsLookup f.bindings s with
      | some v => some v
      | none =>
        match f.parent with
        | some p => envGet σ fuel p s
        | none => none

/-- The numeric view taken by `make_binary_op`'s
`isinstance(x, (int, float))` check: Python booleans are `int`s with
values 1 and 0. -/
def toNum : Value → Option ℚ
  | .num q => some q
  | .bool b => some (if b then 1 else 0)
  | _ => none

/-- Python truthiness of the values the evaluator can produce: `0`, `0.0`,
`False` and `None` are falsy; every other number, `True` and every callable
are truthy. -/
def truthy : Value → Bool
  | .num q => decide (q ≠ 0)
  | .bool b => b
  | .noneV => false
  | .proc _ => true

/-- The body of a `make_binary_op` primitive applied to two values: the
`isinstance` type check raising `TypeError` (message `"Expected numbers,
got ..."`, which does not contain `"arguments"`), then the wrapped
operation; `/` raises `ZeroDivisionError` when the divisor equals zero
(`y != 0` in Python is numeric, so `False` and `0.0` also trip it). -/
def applyPrim (op : PrimOp) (x y : Value) : Except Err Value :=
  match toNum x, toNum y with
  | some a, some b =>
    match op with
    | .add => .ok (.num (a + b))
    | .mul => .ok (.num (a * b))
    | .sub => .ok (.num (a - b))
    | .div => if b ≠ 0 then .ok (.num (a / b)) else .error .zeroDivision
    | .eq => .ok (.bool (decide (a = b)))
    | .lt => .ok (.bool (decide (a < b)))
    | .gt => .ok (.bool (decide (a > b)))
  | _, _ => .error (.typeError false)

/-- The global environment built by `create_global_environment`: the seven
type-checked binary primitives in source order, then `memoize`. -/
def globalFrame : Frame :=
  { bindings :=
      [("+", .proc (.prim .add)),
       ("*", .proc (.prim .mul)),
       ("-", .proc (.prim .sub)),
       ("/", .proc (.prim .div)),
       ("=", .proc (.prim .eq)),
       ("<", .proc (.prim .lt)),
       (">", .proc (.prim .gt)),
       ("memoize", .proc .memoizeProc)],
    parent := none }

/-- A fresh store holding only the global environment, at index 0. -/
def create_global_environment : Store := [globalFrame]

mutual

/-- `validate_expression` / its recursion into tuple elements: the only
rejected shape is a `None` sub-expression (`"Expression cannot be None"`);
numbers, strings and callables pass. -/
def validate_expression : Expr → Bool
  | .noneLit => false
  | .tup es => validateList es
  | _ => true

def validateList : List Expr → Bool
  | [] => true
  | e :: es => validate_expression e && validateList es

end

/-- The parameter-validation loop of `evaluate_lambda`: every parameter
must be a string, non-empty, and not a duplicate of an earlier one.  All
three violations raise `InvalidExpressionError`, so `none` stands for that
single outcome. -/
def extractParams : List Expr → List String → Option (List String)
  | [], acc => some acc
  | .sym s :: rest, acc =>
    if s = "" then none
    else if s ∈ acc then none
    else extractParams rest (acc ++ [s])
  | _ :: _, _ => none

/-- `evaluate_lambda`: arity of the form itself, parameter-tuple shape,
parameter validation, body validation, then the closure value capturing the
current environment by reference (its index). -/
def evaluate_lambda (args : List Expr) (env : Nat) : Except Err Proc :=
  match args with
  | [paramsE, body] =>
    match paramsE with
    | .tup ps =>
      match extractParams ps [] with
      | some names =>
        if validate_expression body then .ok (.closure names body env)
        else .error .invalidExpression
      | none => .error .invalidExpression
    | _ => .error .invalidExpression
  | _ => .error .arityError

/-- The `except Exception` blocks that wrap a nested failure in a fresh
`InvalidExpressionError` (in `evaluate_define`, `evaluate_if`'s condition
and `evaluate_application`'s operator/operand evaluation).  Fuel exhaustion
is our artefact for the host stack limit, outside the source's error
contract, and stays transparent. -/
def wrapErr : Err → Err
  | .outOfFuel => .outOfFuel
  | _ => .invalidExpression

/-- The `except` ladder around `proc(*args)` in `evaluate_application`:
`ArityError` is re-raised as `ArityError`; a `TypeError` whose message
contains `"arguments"` becomes `ArityError`, any other `TypeError` becomes
`InvalidExpressionError`; every remaining exception (including
`ZeroDivisionError` and `UndefinedSymbolError` escaping a closure body)
becomes `InvalidExpressionError`. -/
def convertApplyErr : Err → Err
  | .arityError => .arityError
  | .typeError true => .arityError
  | .typeError false => .invalidExpression
  | .outOfFuel => .outOfFuel
  | _ => .invalidExpression

/-- `evaluate_atom`: numbers (and booleans, which `isinstance(-, (int,
float))` accepts) evaluate to themselves; a string is looked up through the
environment chain, an absent symbol raising `UndefinedSymbolError` carrying
the name (the source catches and re-raises the same kind with a larger
message); anything else is `"Invalid atom type"`. -/
def evaluate_atom (e : Expr) (env : Nat) (σ : Store) : Except Err Value :=
  match e with
  | .num q => .ok (.num q)
  | .bool b => .ok (.bool b)
  | .sym s =>
    match envGet σ σ.length env s with
    | some v => .ok v
    | none => .error (.undefinedSymbol s)
  | _ => .error .invalidExpression

mutual

/-- `evaluate`: dispatch on the expression's shape — callables return
themselves, non-tuples go to `evaluate_atom`, the empty tuple is
`"Cannot evaluate empty expression"`, then special forms by the first
element, else procedure application.  Every recursive call (here and in
the handlers below) spends one unit of fuel, so the whole mutual bundle is
structurally recursive on the fuel and computes by reduction. -/
def evaluate : Nat → Expr → Nat → Store → (Except Err Value) × Store
  | 0, _, _, σ => (.error .outOfFuel, σ)
  | fuel + 1, e, env, σ =>
    match e with
    | .proc p => (.ok (.proc p), σ)
    | .tup [] => (.error .invalidExpression, σ)
    | .tup (op :: args) =>
      match op with
      | .sym s =>
        if s = "define" then evaluate_define fuel args env σ
        else if s = "if" then evaluate_if fuel args env σ
        else if s = "lambda" then
          match evaluate_lambda args env with
          | .ok p => (.ok (.proc p), σ)
          | .error err => (.error err, σ)
        else evaluate_application fuel (.sym s) args env σ
      | _ => evaluate_application fuel op args env σ
    | _ => (evaluate_atom e env σ, σ)
termination_by structural fuel _ _ _ => fuel

/-- `evaluate_define`: exactly two operands (`ArityError` otherwise), a
non-empty string symbol not naming a special form (`InvalidExpressionError`
otherwise), then the value expression evaluated against the *current*
environment inside a `try` that wraps any failure, then the in-place
binding.  Returns `None`. -/
def evaluate_define : Nat → List Expr → Nat → Store → (Except Err Value) × Store
  | 0, _, _, σ => (.error .outOfFuel, σ)
  | fuel + 1, args, env, σ =>
    match args with
    | [symE, valE] =>
      match symE with
      | .sym s =>
        if s = "" then (.error .invalidExpression, σ)
        else if s = "define" ∨ s = "if" ∨ s = "lambda" then (.error .invalidExpression, σ)
        else
          match evaluate fuel valE env σ with
          | (.ok v, σ') => (.ok .noneV, storeDefine σ' env s v)
          | (.error err, σ') => (.error (wrapErr err), σ')
      | _ => (.error .invalidExpression, σ)
    | _ => (.error .arityError, σ)
termination_by structural fuel _ _ _ => fuel

/-- `evaluate_if`: exactly three operands (`ArityError` otherwise); the
condition is evaluated once inside a wrapping `try`; Python truthiness then
selects exactly one branch to evaluate. -/
def evaluate_if : Nat → List Expr → Nat → Store → (Except Err Value) × Store
  | 0, _, _, σ => (.error .outOfFuel, σ)
  | fuel + 1, args, env, σ =>
    match args with
    | [condE, thenE, elseE] =>
      match evaluate fuel condE env σ with
      | (.error err, σ') => (.error (wrapErr err), σ')
      | (.ok v, σ') =>
        if truthy v then evaluate fuel thenE env σ' else evaluate fuel elseE env σ'
    | _ => (.error .arityError, σ)
termination_by structural fuel _ _ _ => fuel

/-- `evaluate_application`: evaluate the operator (wrapping any failure),
reject non-callables, evaluate the operands left to right (each inside its
own wrapping `try`), then apply the procedure through the `except` ladder
modelled by `convertApplyErr`. -/
def evaluate_application : Nat → Expr → List Expr → Nat → Store →
    (Except Err Value) × Store
  | 0, _, _, _, σ => (.error .outOfFuel, σ)
  | fuel + 1, operator, operands, env, σ =>
    match evaluate fuel operator env σ with
    | (.error err, σ₁) => (.error (wrapErr err), σ₁)
    | (.ok v, σ₁) =>
      match v with
      | .proc p =>
        match evalArgs fuel operands env σ₁ with
        | (.error err, σ₂) => (.error err, σ₂)
        | (.ok args, σ₂) =>
          match applyProc fuel p args σ₂ with
          | (r, σ₃) => (r.mapError convertApplyErr, σ₃)
      | _ => (.error .invalidExpression, σ₁)
termination_by structural fuel _ _ _ _ => fuel

/-- The operand loop of `evaluate_application`: each operand's failure is
wrapped (`"Error evaluating argument i"`) and aborts the application. -/
def evalArgs : Nat → List Expr → Nat → Store → (Except Err (List Value)) × Store
  | 0, _, _, σ => (.error .outOfFuel, σ)
  | fuel + 1, es, env, σ =>
    match es with
    | [] => (.ok [], σ)
    | e :: rest =>
      match evaluate fuel e env σ with
      | (.error err, σ') => (.error (wrapErr err), σ')
      | (.ok v, σ') =>
        match evalArgs fuel rest env σ' with
        | (.error err, σ'') => (.error err, σ'')
        | (.ok vs, σ'') => (.ok (v :: vs), σ'')
termination_by structural fuel _ _ _ => fuel

/-- Calling a procedure value on already-evaluated arguments.  A primitive
checks its Python-level arity through `TypeError` messages (two arguments
expected; the `mentionsArguments` flags follow the host's singular/plural
wording), `memoize` demands one callable, a `make_memoized` wrapper calls
through to the wrapped procedure (its cache only short-circuits
recomputation and is modelled as always missing), and a closure checks its
declared arity (`ArityError`), allocates a fresh child frame binding the
parameters to the arguments with the captured environment as parent, and
evaluates its body there. -/
def applyProc : Nat → Proc → List Value → Store → (Except Err Value) × Store
  | 0, _, _, σ => (.error .outOfFuel, σ)
  | fuel + 1, p, args, σ =>
    match p with
    | .prim op =>
      match args with
      | [x, y] => (applyPrim op x y, σ)
      | [] => (.error (.typeError true), σ)
      | [_] => (.error (.typeError false), σ)
      | _ => (.error (.typeError true), σ)
    | .memoizeProc =>
      match args with
      | [.proc q] => (.ok (.proc (.memoized q)), σ)
      | [_] => (.error .invalidExpression, σ)
      | _ => (.error (.typeError false), σ)
    | .memoized q => applyProc fuel q args σ
    | .closure params body envId =>
      if args.length = params.length then
        evaluate fuel body σ.length (σ ++ [⟨params.zip args, some envId⟩])
      else (.error .arityError, σ)
termination_by structural fuel _ _ _ => fuel

end

/-! Auxiliary notions used to state the claims. -/

/-- Shorthand for the source expression `("define", s, v)`. -/
def defineExpr (s : String) (v : Expr) : Expr := .tup [.sym "define", .sym s, v]

/-- Shorthand for the source expression `("if", c, t, e)`. -/
def ifExpr (c t e : Expr) : Expr := .tup [.sym "if", c, t, e]

/-- Symbol `s` has a binding in the frame at index `id`. -/
def boundIn (σ : Store) (id : Nat) (s : String) : Prop :=
  ∃ f v, σ[id]? = some f ∧ bindingsLookup f.bindings s = some v

/-- What one evaluation step against environment `env` may do to the store:
it can grow it, mutate the frame of `env` itself, and extend bindings, but
every other pre-existing frame is untouched and no binding anywhere is
removed. -/
def StorePres (env : Nat) (σ σ' : Store) : Prop :=
  σ.length ≤ σ'.length ∧
  (∀ id, id < σ.length → id ≠ env → σ'[id]? = σ[id]?) ∧
  (∀ id s, boundIn σ id s → boundIn σ' id s)

/-- What a procedure application may do to the store: grow it; every
pre-existing frame (the caller's environment included) is untouched. -/
def ApplyPres (σ σ' : Store) : Prop :=
  σ.length ≤ σ'.length ∧ (∀ id, id < σ.length → σ'[id]? = σ[id]?)

/-- The `enclosing` pointer of the frame at `id`. -/
def parentOf (σ : Store) (id : Nat) : Option Nat :=
  match σ[id]? with
  | some f => f.parent
  | none => none

/-- `A` is a strict ancestor of `c`: reachable through one or more
`enclosing` links. -/
inductive AncestorOf (σ : Store) : Nat → Nat → Prop where
  | parentStep {c p : Nat} : parentOf σ c = some p → AncestorOf σ c p
  | parentTrans {c m p : Nat} : parentOf σ c = some m → AncestorOf σ m p →
      AncestorOf σ c p

/-- Well-formed store: every `enclosing` pointer refers to an older frame.
Every store the interpreter ever builds satisfies this, because a child
frame is appended after its parent. -/
def StoreWF (σ : Store) : Prop :=
  ∀ (id : Nat) (f : Frame), σ[id]? = some f → ∀ p, f.parent = some p → p < id

/-! The concrete programs named by the claims. -/

/-- The source expression `("lambda", ("x",), ("+", "x", "a"))`. -/
def add_a_lambda : Expr :=
  .tup [.sym "lambda", .tup [.sym "x"], .tup [.sym "+", .sym "x", .sym "a"]]

/-- The store after `(define a 0)`, `(define add_a (lambda (x) (+ x a)))`
and the re-definition `(define a v)`, all against the global
environment. -/
def add_a_store (v : ℚ) : Store :=
  (evaluate 10 (defineExpr "a" (.num v)) 0
    ((evaluate 10 (defineExpr "add_a" add_a_lambda) 0
      ((evaluate 10 (defineExpr "a" (.num 0)) 0 create_global_environment).2)).2)).2

/-- The `fibonacci` lambda of the repository's test suite:
`("lambda", ("n",), ("if", ("<", "n", 2), 1, ("+", ("fibonacci", ("-", "n",
2)), ("fibonacci", ("-", "n", 1)))))`. -/
def fibonacci_lambda : Expr :=
  .tup [.sym "lambda", .tup [.sym "n"],
    .tup [.sym "if", .tup [.sym "<", .sym "n", .num 2],
      .num 1,
      .tup [.sym "+",
        .tup [.sym "fibonacci", .tup [.sym "-", .sym "n", .num 2]],
        .tup [.sym "fibonacci", .tup [.sym "-", .sym "n", .num 1]]]]]

/-- The store after `(define fibonacci ...)` against the global
environment. -/
def fibonacci_store : Store :=
  (evaluate 10 (defineExpr "fibonacci" fibonacci_lambda) 0 create_global_environment).2

/-- A two-frame store for the witness of the ancestor-preservation claim:
a root frame binding `a` and an empty child frame whose parent is the
root. -/
def twoFrameStore : Store :=
  [{ bindings := [("a", .num 1)], parent := none },
   { bindings := [], parent := some 0 }]

/-! Store-preservation lemmas: one evaluation step against environment
`env` can allocate frames, mutate `env`'s own frame and extend bindings,
but never touches any other pre-existing frame and never removes a
binding.  Proved by one mutual induction over the fuel. -/


lemma storePres_refl (env : Nat) (σ : Store) : StorePres env σ σ :=
  ⟨le_refl _, fun _ _ _ => rfl, fun _ _ h => h⟩

lemma storePres_trans {env : Nat} {σ σ' σ'' : Store}
    (h1 : StorePres env σ σ') (h2 : StorePres env σ' σ'') : StorePres env σ σ'' := by
  obtain ⟨l1, f1, b1⟩ := h1
  obtain ⟨l2, f2, b2⟩ := h2
  exact ⟨le_trans l1 l2,
    fun id hid hne => (f2 id (lt_of_lt_of_le hid l1) hne).trans (f1 id hid hne),
    fun id s h => b2 id s (b1 id s h)⟩

lemma applyPres_refl (σ : Store) : ApplyPres σ σ := ⟨le_refl _, fun _ _ => rfl⟩

lemma boundIn_lt {σ : Store} {id : Nat} {s : String} (h : boundIn σ id s) :
    id < σ.length := by
  obtain ⟨f, v, hf, _⟩ := h
  exact (List.getElem?_eq_some.mp hf).1

lemma applyPres_storePres {σ σ' : Store} (h : ApplyPres σ σ') (env : Nat) :
    StorePres env σ σ' := by
  obtain ⟨l, f⟩ := h
  refine ⟨l, fun id hid _ => f id hid, fun id s hb => ?_⟩
  obtain ⟨fr, v, hf, hl⟩ := hb
  exact ⟨fr, v, (f id (boundIn_lt ⟨fr, v, hf, hl⟩)).trans hf, hl⟩

lemma closure_call_pres {σ σ' : Store} {f : Frame}
    (h : StorePres σ.length (σ ++ [f]) σ') : ApplyPres σ σ' := by
  obtain ⟨l, fr, _⟩ := h
  constructor
  · calc σ.length ≤ (σ ++ [f]).length := by simp
      _ ≤ σ'.length := l
  · intro id hid
    have h1 : (σ ++ [f])[id]? = σ[id]? := List.getElem?_append_left hid
    have h2 : σ'[id]? = (σ ++ [f])[id]? := by
      refine fr id ?_ ?_
      · simp only [List.length_append, List.length_singleton]
        omega
      · omega
    exact h2.trans h1

lemma bindingsUpdate_mono {b : List (String × Value)} {s s' : String} {v w : Value}
    (h : bindingsLookup b s' = some w) :
    ∃ u, bindingsLookup (bindingsUpdate b s v) s' = some u := by
  induction b with
  | nil => simp [bindingsLookup] at h
  | cons kv rest ih =>
    obtain ⟨k, x⟩ := kv
    by_cases hks : k = s
    · subst hks
      simp only [bindingsUpdate, if_pos rfl]
      by_cases hss : k = s'
      · exact ⟨v, by simp [bindingsLookup, hss]⟩
      · simp only [bindingsLookup, if_neg hss] at h ⊢
        exact ⟨w, h⟩
    · simp only [bindingsUpdate, if_neg hks]
      by_cases hss : k = s'
      · exact ⟨x, by simp [bindingsLookup, hss]⟩
      · simp only [bindingsLookup, if_neg hss] at h ⊢
        exact ih h

lemma storeDefine_pres (σ : Store) (env : Nat) (s : String) (v : Value) :
    StorePres env σ (storeDefine σ env s v) := by
  unfold storeDefine
  cases hσ : σ[env]? with
  | none => exact storePres_refl env σ
  | some f =>
    have henv : env < σ.length := (List.getElem?_eq_some.mp hσ).1
    refine ⟨by simp [List.length_set], fun id hid hne => List.getElem?_set_ne (Ne.symm hne),
      fun id s' hb => ?_⟩
    by_cases hid : id = env
    · subst hid
      obtain ⟨fr, w, hfr, hlk⟩ := hb
      rw [hσ] at hfr
      injection hfr with hfr
      subst hfr
      obtain ⟨u, hu⟩ := bindingsUpdate_mono (s := s) (v := v) hlk
      exact ⟨f.defineBinding s v, u, List.getElem?_set_eq_of_lt _ henv, hu⟩
    · obtain ⟨fr, w, hfr, hlk⟩ := hb
      exact ⟨fr, w, (List.getElem?_set_ne (Ne.symm hid)).trans hfr, hlk⟩

lemma evalPres : ∀ fuel : Nat,
    (∀ e env σ, StorePres env σ (evaluate fuel e env σ).2) ∧
    (∀ args env σ, StorePres env σ (evaluate_define fuel args env σ).2) ∧
    (∀ args env σ, StorePres env σ (evaluate_if fuel args env σ).2) ∧
    (∀ op args env σ, StorePres env σ (evaluate_application fuel op args env σ).2) ∧
    (∀ es env σ, StorePres env σ (evalArgs fuel es env σ).2) ∧
    (∀ p args σ, ApplyPres σ (applyProc fuel p args σ).2) := by
  intro fuel
  induction fuel with
  | zero =>
    exact ⟨fun _ env σ => storePres_refl env σ, fun _ env σ => storePres_refl env σ,
      fun _ env σ => storePres_refl env σ, fun _ _ env σ => storePres_refl env σ,
      fun _ env σ => storePres_refl env σ, fun _ _ σ => applyPres_refl σ⟩
  | succ n ih =>
    obtain ⟨ihE, ihD, ihI, ihA, ihArgs, ihP⟩ := ih
    have hD : ∀ args env σ, StorePres env σ (evaluate_define (n + 1) args env σ).2 := by
      intro args env σ
      rcases args with _ | ⟨symE, args⟩
      · exact storePres_refl env σ
      rcases args with _ | ⟨valE, args⟩
      · exact storePres_refl env σ
      rcases args with _ | ⟨x, args⟩
      case cons.cons.cons => exact storePres_refl env σ
      rcases symE with q | b | _ | s | es | p
      case num => exact storePres_refl env σ
      case bool => exact storePres_refl env σ
      case noneLit => exact storePres_refl env σ
      case tup => exact storePres_refl env σ
      case proc => exact storePres_refl env σ
      case sym =>
        simp only [evaluate_define]
        by_cases h1 : s = ""
        · simp only [if_pos h1]
          exact storePres_refl env σ
        simp only [if_neg h1]
        by_cases h2 : s = "define" ∨ s = "if" ∨ s = "lambda"
        · simp only [if_pos h2]
          exact storePres_refl env σ
        simp only [if_neg h2]
        split
        next v σ' hev =>
          have h := ihE valE env σ
          rw [hev] at h
          exact storePres_trans h (storeDefine_pres σ' env s v)
        next err σ' hev =>
          have h := ihE valE env σ
          rw [hev] at h
          exact h
    have hI : ∀ args env σ, StorePres env σ (evaluate_if (n + 1) args env σ).2 := by
      intro args env σ
      rcases args with _ | ⟨condE, args⟩
      · exact storePres_refl env σ
      rcases args with _ | ⟨thenE, args⟩
      · exact storePres_refl env σ
      rcases args with _ | ⟨elseE, args⟩
      · exact storePres_refl env σ
      rcases args with _ | ⟨x, args⟩
      case cons.cons.cons.cons => exact storePres_refl env σ
      simp only [evaluate_if]
      split
      next err σ' hev =>
        have h := ihE condE env σ
        rw [hev] at h
        exact h
      next v σ' hev =>
        have h := ihE condE env σ
        rw [hev] at h
        by_cases ht : truthy v
        · simp only [if_pos ht]
          exact storePres_trans h (ihE thenE env σ')
        · simp only [if_neg ht]
          exact storePres_trans h (ihE elseE env σ')
    have hArgs : ∀ es env σ, StorePres env σ (evalArgs (n + 1) es env σ).2 := by
      intro es env σ
      rcases es with _ | ⟨e, rest⟩
      · exact storePres_refl env σ
      simp only [evalArgs]
      split
      next err σ' hev =>
        have h := ihE e env σ
        rw [hev] at h
        exact h
      next v σ' hev =>
        have h1 : StorePres env σ σ' := by
          have h := ihE e env σ
          rw [hev] at h
          exact h
        split
        next err σ'' hrest =>
          have h2 := ihArgs rest env σ'
          rw [hrest] at h2
          exact storePres_trans h1 h2
        next vs σ'' hrest =>
          have h2 := ihArgs rest env σ'
          rw [hrest] at h2
          exact storePres_trans h1 h2
    have hP : ∀ p args σ, ApplyPres σ (applyProc (n + 1) p args σ).2 := by
      intro p args σ
      rcases p with op | _ | q | ⟨params, body, envId⟩
      case prim =>
        rcases args with _ | ⟨x, args⟩
        · exact applyPres_refl σ
        rcases args with _ | ⟨y, args⟩
        · exact applyPres_refl σ
        rcases args with _ | ⟨z, args⟩
        · exact applyPres_refl σ
        · exact applyPres_refl σ
      case memoizeProc =>
        rcases args with _ | ⟨v, args⟩
        · exact applyPres_refl σ
        rcases v with q | b | _ | p <;> rcases args with _ | ⟨w, args⟩ <;>
          exact applyPres_refl σ
      case memoized => exact ihP q args σ
      case closure =>
        simp only [applyProc]
        by_cases hlen : args.length = params.length
        · simp only [if_pos hlen]
          exact closure_call_pres (ihE body σ.length (σ ++ [⟨params.zip args, some envId⟩]))
        · simp only [if_neg hlen]
          exact applyPres_refl σ
    have hA : ∀ op args env σ, StorePres env σ (evaluate_application (n + 1) op args env σ).2 := by
      intro op args env σ
      simp only [evaluate_application]
      split
      next err σ₁ hop =>
        have h := ihE op env σ
        rw [hop] at h
        exact h
      next v σ₁ hop =>
        have h1 : StorePres env σ σ₁ := by
          have h := ihE op env σ
          rw [hop] at h
          exact h
        rcases v with q | b | _ | p
        case num => exact h1
        case bool => exact h1
        case noneV => exact h1
        case proc =>
          dsimp only
          split
          next err σ₂ hargs =>
            have h2 := ihArgs args env σ₁
            rw [hargs] at h2
            exact storePres_trans h1 h2
          next vals σ₂ hargs =>
            have h2 : StorePres env σ₁ σ₂ := by
              have h := ihArgs args env σ₁
              rw [hargs] at h
              exact h
            have h3 : ApplyPres σ₂ (applyProc n p vals σ₂).2 := ihP p vals σ₂
            exact storePres_trans (storePres_trans h1 h2) (applyPres_storePres h3 env)
    have hE : ∀ e env σ, StorePres env σ (evaluate (n + 1) e env σ).2 := by
      intro e env σ
      rcases e with q | b | _ | s | es | p
      case num => exact storePres_refl env σ
      case bool => exact storePres_refl env σ
      case noneLit => exact storePres_refl env σ
      case sym => exact storePres_refl env σ
      case proc => exact storePres_refl env σ
      case tup =>
        rcases es with _ | ⟨op, args⟩
        · exact storePres_refl env σ
        rcases op with q | b | _ | s | es' | p
        case num => exact ihA _ args env σ
        case bool => exact ihA _ args env σ
        case noneLit => exact ihA _ args env σ
        case tup => exact ihA _ args env σ
        case proc => exact ihA _ args env σ
        case sym =>
          simp only [evaluate]
          by_cases h1 : s = "define"
          · simp only [if_pos h1]
            exact ihD args env σ
          simp only [if_neg h1]
          by_cases h2 : s = "if"
          · simp only [if_pos h2]
            exact ihI args env σ
          simp only [if_neg h2]
          by_cases h3 : s = "lambda"
          · simp only [if_pos h3]
            rcases evaluate_lambda args env with err | p
            · exact storePres_refl env σ
            · exact storePres_refl env σ
          · simp only [if_neg h3]
            exact ihA (.sym s) args env σ
    exact ⟨hE, hD, hI, hA, hArgs, hP⟩


lemma parentOf_bounds {σ : Store} (hwf : StoreWF σ) {c m : Nat}
    (hm : parentOf σ c = some m) : m < c ∧ c < σ.length := by
  unfold parentOf at hm
  rcases hσ : σ[c]? with _ | f
  · rw [hσ] at hm
    cases hm
  · rw [hσ] at hm
    exact ⟨hwf c f hσ m hm, (List.getElem?_eq_some.mp hσ).1⟩

lemma ancestorOf_lt {σ : Store} (hwf : StoreWF σ) {c p : Nat} (h : AncestorOf σ c p) :
    p < c ∧ p < σ.length := by
  induction h with
  | parentStep hp =>
    obtain ⟨h1, h2⟩ := parentOf_bounds hwf hp
    exact ⟨h1, lt_trans h1 h2⟩
  | parentTrans hm _ ih =>
    obtain ⟨h1, _⟩ := parentOf_bounds hwf hm
    exact ⟨lt_trans ih.1 h1, ih.2⟩

/-- C1 (amended): in `(if c t e)`, a condition that evaluates to numeric
zero is falsy under the source's Python truthiness (the claim said it would
be truthy), so `evaluate` returns the value of the else-branch `e`, for
every environment, store and then/else expressions. -/
theorem if_zero_condition_selects_else (fuel : Nat) (c t e : Expr) (env : Nat)
    (σ σ₁ : Store) (h : evaluate fuel c env σ = (.ok (.num 0), σ₁)) :
    evaluate (fuel + 2) (ifExpr c t e) env σ = evaluate fuel e env σ₁ := by
  have h0 : evaluate (fuel + 2) (ifExpr c t e) env σ = evaluate_if (fuel + 1) [c, t, e] env σ := rfl
  rw [h0]
  simp only [evaluate_if, h]
  norm_num [truthy]

/-- C1 witness: the amended theorem applied at the concrete program
`(if 0 1 2)` in the global environment. -/
theorem if_zero_condition_selects_else_witness :
    evaluate 1 (.num 0) 0 create_global_environment = (.ok (.num 0), create_global_environment) ∧
    evaluate 3 (ifExpr (.num 0) (.num 1) (.num 2)) 0 create_global_environment
      = evaluate 1 (.num 2) 0 create_global_environment := by
  have h : evaluate 1 (.num 0) 0 create_global_environment
      = (.ok (.num 0), create_global_environment) := rfl
  exact ⟨h, if_zero_condition_selects_else 1 (.num 0) (.num 1) (.num 2) 0
    create_global_environment create_global_environment h⟩

/-- C1 counterexample: `(if 0 1 2)` evaluates to 2, the else-branch, not
to the then-branch value 1 the claim requires. -/
theorem if_zero_condition_counterexample :
    (evaluate 10 (ifExpr (.num 0) (.num 1) (.num 2)) 0 create_global_environment).1
      = .ok (.num 2) ∧
    (evaluate 10 (ifExpr (.num 0) (.num 1) (.num 2)) 0 create_global_environment).1
      ≠ .ok (.num 1) := by
  have h : (evaluate 10 (ifExpr (.num 0) (.num 1) (.num 2)) 0 create_global_environment).1
      = .ok (.num 2) := by with_unfolding_all rfl
  refine ⟨h, ?_⟩
  rw [h]
  intro hx
  injection hx with h1
  injection h1 with h2
  norm_num at h2

set_option maxHeartbeats 1000000 in
/-- C2: closures capture their defining environment by reference: after
`(define a 0)`, `(define add_a (lambda (x) (+ x a)))` and the re-definition
`(define a v)`, every subsequent call `(add_a x)` returns `x + v` — the
re-defined value — and so does a further call made after that one. -/
theorem closure_captures_environment_by_reference (v x₁ x₂ : ℚ) :
    (evaluate 20 (.tup [.sym "add_a", .num x₁]) 0 (add_a_store v)).1 = .ok (.num (x₁ + v)) ∧
    (evaluate 20 (.tup [.sym "add_a", .num x₂]) 0
      ((evaluate 20 (.tup [.sym "add_a", .num x₁]) 0 (add_a_store v)).2)).1
        = .ok (.num (x₂ + v)) :=
  ⟨by with_unfolding_all rfl, by with_unfolding_all rfl⟩

/-- C3: evaluating the empty compound expression (the zero-element tuple)
fails with the malformed-expression kind (`InvalidExpressionError`) in
every environment and store, whenever any fuel is available. -/
theorem empty_compound_is_invalid_expression (fuel env : Nat) (σ : Store) :
    evaluate (fuel + 1) (.tup []) env σ = (.error .invalidExpression, σ) := rfl

/-- C4: `("/", a, b)` returns `a / b` for every nonzero `b`; at `b = 0`
the division-by-zero fault is wrapped by `evaluate_application`'s blanket
`except Exception`, so the call surfaces `InvalidExpressionError` (the
malformed-expression kind), not the `ZeroDivisionError` value fault the
claim (and the repository's own `test_type_errors`) expects. -/
theorem division_behaviour :
    (∀ a b : ℚ, b ≠ 0 →
      evaluate 10 (.tup [.sym "/", .num a, .num b]) 0 create_global_environment
        = (.ok (.num (a / b)), create_global_environment)) ∧
    evaluate 10 (.tup [.sym "/", .num 10, .num 0]) 0 create_global_environment
      = (.error .invalidExpression, create_global_environment) ∧
    evaluate 10 (.tup [.sym "/", .num 10, .num 0]) 0 create_global_environment
      ≠ (.error .zeroDivision, create_global_environment) := by
  have hz : evaluate 10 (.tup [.sym "/", .num 10, .num 0]) 0 create_global_environment
      = (.error .invalidExpression, create_global_environment) := by with_unfolding_all rfl
  refine ⟨?_, hz, ?_⟩
  · intro a b hb
    have h0 : evaluate 10 (.tup [.sym "/", .num a, .num b]) 0 create_global_environment
        = ((applyPrim .div (.num a) (.num b)).mapError convertApplyErr,
            create_global_environment) := by
      with_unfolding_all rfl
    rw [h0]
    have h1 : applyPrim .div (.num a) (.num b) = .ok (.num (a / b)) := by
      simp [applyPrim, toNum, hb]
    rw [h1]
    rfl
  · rw [hz]
    intro hx
    have h1 : (Err.invalidExpression : Err) = Err.zeroDivision := by
      injection hx with h2 h3
      exact Except.error.inj h2
    cases h1

/-- C4 witness: the nonzero-divisor half applied at `("/", 6, 3)`. -/
theorem division_behaviour_witness :
    (3 : ℚ) ≠ 0 ∧
    evaluate 10 (.tup [.sym "/", .num 6, .num 3]) 0 create_global_environment
      = (.ok (.num (6 / 3)), create_global_environment) :=
  ⟨by norm_num, division_behaviour.1 6 3 (by norm_num)⟩

/-- C5 counterexample: an undefined symbol in operand position, as in
`("+", "nosuchname", 1)`, surfaces `InvalidExpressionError`, not the
`UndefinedSymbolError` the claim requires for every position. -/
theorem undefined_symbol_wrapped_counterexample :
    (evaluate 10 (.tup [.sym "+", .sym "nosuchname", .num 1]) 0 create_global_environment).1
      = .error .invalidExpression ∧
    (evaluate 10 (.tup [.sym "+", .sym "nosuchname", .num 1]) 0 create_global_environment).1
      ≠ .error (.undefinedSymbol "nosuchname") := by
  have h : (evaluate 10 (.tup [.sym "+", .sym "nosuchname", .num 1]) 0
      create_global_environment).1 = .error .invalidExpression := by with_unfolding_all rfl
  refine ⟨h, ?_⟩
  rw [h]
  intro hx
  cases Except.error.inj hx

/-- C5 (amended): a symbol absent through the entire environment chain
fails with `UndefinedSymbolError` carrying the name when the symbol is the
whole expression; when it occurs inside a define's value expression or as
an application operand, the fault is wrapped and surfaces as the
malformed-expression kind. -/
theorem undefined_symbol_error_surfacing :
    (∀ (fuel env : Nat) (σ : Store) (s : String), envGet σ σ.length env s = none →
      evaluate (fuel + 1) (.sym s) env σ = (.error (.undefinedSymbol s), σ)) ∧
    (evaluate 10 (defineExpr "x" (.sym "nosuchname")) 0 create_global_environment).1
      = .error .invalidExpression ∧
    (evaluate 10 (.tup [.sym "+", .sym "nosuchname", .num 1]) 0 create_global_environment).1
      = .error .invalidExpression := by
  refine ⟨?_, by with_unfolding_all rfl, by with_unfolding_all rfl⟩
  intro fuel env σ s h
  have h0 : evaluate (fuel + 1) (.sym s) env σ = (evaluate_atom (.sym s) env σ, σ) := rfl
  rw [h0]
  simp only [evaluate_atom, h]

/-- C5 witness: the whole-expression half applied to the symbol `zzz`,
absent from the global environment. -/
theorem undefined_symbol_error_surfacing_witness :
    envGet create_global_environment create_global_environment.length 0 "zzz" = none ∧
    evaluate 3 (.sym "zzz") 0 create_global_environment
      = (.error (.undefinedSymbol "zzz"), create_global_environment) := by
  have h : envGet create_global_environment create_global_environment.length 0 "zzz"
      = none := by with_unfolding_all rfl
  exact ⟨h, undefined_symbol_error_surfacing.1 2 0 create_global_environment "zzz" h⟩

set_option maxRecDepth 100000 in
/-- C6: after `(define fibonacci (lambda (n) (if (< n 2) 1 (+ (fibonacci
(- n 2)) (fibonacci (- n 1))))))`, the recursive closure resolves its own
name through its captured environment and `("fibonacci", 9)` evaluates to
55. -/
theorem fibonacci_nine_is_55 :
    (evaluate 300 (.tup [.sym "fibonacci", .num 9]) 0 fibonacci_store).1
      = .ok (.num 55) := by
  with_unfolding_all rfl

/-- C7: evaluating `(define s v)` against environment `env` leaves every
strict ancestor `A` of `env` (in a well-formed store) completely unchanged
— frame `A` after the call is the frame `A` before it. -/
theorem define_never_mutates_ancestors (fuel : Nat) (s : String) (v : Expr)
    (env A : Nat) (σ : Store) (hwf : StoreWF σ) (hanc : AncestorOf σ env A) :
    ((evaluate fuel (defineExpr s v) env σ).2)[A]? = σ[A]? := by
  obtain ⟨hlt, hlen⟩ := ancestorOf_lt hwf hanc
  exact ((evalPres fuel).1 (defineExpr s v) env σ).2.1 A hlen (Nat.ne_of_lt hlt)

/-- C7 witness: a two-frame store, defining `a` (already bound in the
parent) against the child frame leaves the parent frame unchanged. -/
theorem define_never_mutates_ancestors_witness :
    StoreWF twoFrameStore ∧ AncestorOf twoFrameStore 1 0 ∧
    ((evaluate 5 (defineExpr "a" (.num 2)) 1 twoFrameStore).2)[0]? = twoFrameStore[0]? := by
  have hwf : StoreWF twoFrameStore := by
    intro id f hf p hp
    rcases id with _ | _ | id
    · simp [twoFrameStore] at hf
      rw [← hf] at hp
      cases hp
    · simp [twoFrameStore] at hf
      rw [← hf] at hp
      injection hp with hp
      omega
    · simp [twoFrameStore] at hf
  have hanc : AncestorOf twoFrameStore 1 0 :=
    AncestorOf.parentStep (by with_unfolding_all rfl)
  exact ⟨hwf, hanc,
    define_never_mutates_ancestors 5 "a" (.num 2) 1 0 twoFrameStore hwf hanc⟩

/-- C8: calling a closure with an argument list whose length differs
from its declared parameter count fails with `ArityError`, for every
closure, argument list and store. -/
theorem closure_wrong_arity_fails (fuel : Nat) (params : List String) (body : Expr)
    (envId : Nat) (args : List Value) (σ : Store) (h : args.length ≠ params.length) :
    applyProc (fuel + 1) (.closure params body envId) args σ = (.error .arityError, σ) := by
  simp only [applyProc, if_neg h]

/-- C8 witness: a one-parameter closure applied to zero arguments. -/
theorem closure_wrong_arity_fails_witness :
    ([] : List Value).length ≠ ["x"].length ∧
    applyProc 1 (.closure ["x"] (.num 1) 0) [] create_global_environment
      = (.error .arityError, create_global_environment) :=
  ⟨by decide, closure_wrong_arity_fails 0 ["x"] (.num 1) 0 [] create_global_environment
    (by decide)⟩

/-- C9: a Procedure value evaluates to itself unchanged, without touching
the store, and re-evaluating the result yields the same outcome —
`evaluate` is idempotent on already-evaluated callables. -/
theorem procedure_evaluates_to_itself (fuel : Nat) (p : Proc) (env : Nat) (σ : Store) :
    evaluate (fuel + 1) (.proc p) env σ = (.ok (.proc p), σ) ∧
    evaluate (fuel + 1) (Value.toExpr (.proc p)) env σ
      = evaluate (fuel + 1) (.proc p) env σ :=
  ⟨rfl, rfl⟩

/-- C10: no `evaluate` call removes a binding: every symbol bound in a
frame before the call is still bound in that same frame afterwards
(possibly to a new value). -/
theorem bindings_are_never_removed (fuel : Nat) (e : Expr) (env : Nat) (σ : Store)
    (id : Nat) (s : String) (h : boundIn σ id s) :
    boundIn (evaluate fuel e env σ).2 id s :=
  ((evalPres fuel).1 e env σ).2.2 id s h

/-- C10 witness: `+` stays bound in the global frame across a `define`. -/
theorem bindings_are_never_removed_witness :
    boundIn create_global_environment 0 "+" ∧
    boundIn (evaluate 3 (defineExpr "y" (.num 1)) 0 create_global_environment).2 0 "+" := by
  have h : boundIn create_global_environment 0 "+" :=
    ⟨globalFrame, .proc (.prim .add), rfl, by with_unfolding_all rfl⟩
  exact ⟨h, bindings_are_never_removed 3 (defineExpr "y" (.num 1)) 0
    create_global_environment 0 "+" h⟩

end PyScheme
